import Mathlib

/-!
Shallow embedding of the `FunctionMapper` dispatch table
(src/FunctionMapper.h, src/FunctionMapper.cpp).

Modelling conventions:
* `unsigned int` values are modelled as `Nat`; no arithmetic is performed
  on them besides the implicit C conversion to `unsigned char`, which is
  modelled explicitly as `% 256` at the point where it happens.
* A handler pointer `bool (*)(unsigned char, unsigned char)` is modelled
  as `Option Handler`, where `none` is the null-pointer sentinel and
  `some h` a valid handler; the C comparison `handler == 0` becomes
  `Option.isNone`.
* The backing array `FunctionMap *` is modelled as a `List FunctionMap`;
  the constructor allocates `arraySize + 1` slots, and element access
  `functionMapArray[i]` becomes `List.getD i ⟨0, none⟩`.
* The unbounded sentinel-terminated scans of `validateAddress` and
  `processValue` become structural recursion over the slot list, stopping
  at the first `none` handler exactly as the C loop condition
  `functionMapArray[i].handler != 0` does.  (The constructor always places
  a sentinel terminator at index `arraySize`, so for every table produced
  by the embedded operations the C loop and the structural recursion
  visit the same slots.)
* State mutation (`addHandler`) is explicit state passing: the embedded
  `addHandler` returns the boolean result together with the new table.
-/

set_option autoImplicit false

/-- The type of handler functions: `bool (*)(unsigned char functionCode, unsigned char value)`.
Arguments arrive already truncated to one byte by C conversion rules. -/
def Handler : Type := Nat → Nat → Bool

/-- One slot of the jump vector: `typedef struct { unsigned int functionCode;
bool (*handler)(unsigned char, unsigned char); } FunctionMap;`
(src/FunctionMapper.h line 32).  `handler = none` models the null pointer. -/
structure FunctionMap where
  functionCode : Nat
  handler : Option Handler

/-- The `FunctionMapper` object state: private members `arraySize` and
`functionMapArray` (src/FunctionMapper.h lines 112-113). -/
structure FunctionMapper where
  arraySize : Nat
  functionMapArray : List FunctionMap

/-- The constructor's measurement of the supplied initial array:
`while (functionMapArray[fmaSize].handler != 0) fmaSize++;`
counts the entries before the first sentinel-handler entry. -/
def fmaLiveCount (fma : List FunctionMap) : Nat :=
  (fma.takeWhile (fun e => e.handler.isSome)).length

/-- The constructor `FunctionMapper::FunctionMapper(FunctionMap *functionMapArray,
unsigned int size)` (src/FunctionMapper.cpp lines 3-20).  A null pointer is
modelled as `none`, a non-null pointer to a sentinel-terminated array as
`some fma`.  The copy loop writes `arraySize + 1` slots: the first `fmaSize`
are copied from the supplied array, all the rest get `(0, null)`. -/
def FunctionMapper.construct (functionMapArray : Option (List FunctionMap))
    (size : Nat) : FunctionMapper :=
  match functionMapArray with
  | some fma =>
      let fmaSize := fmaLiveCount fma
      let size := if size < fmaSize then fmaSize else size
      { arraySize := size
        functionMapArray :=
          fma.takeWhile (fun e => e.handler.isSome)
            ++ List.replicate (size + 1 - fmaSize) ⟨0, none⟩ }
  | none =>
      let size := if size = 0 then 10 else size
      { arraySize := size
        functionMapArray := List.replicate (size + 1) ⟨0, none⟩ }

/-- The slot-search loop of `addHandler` (src/FunctionMapper.cpp lines 23-26):
`int slot = -1; for (unsigned int i = 0; i < arraySize; i++) if
(functionMapArray[i].handler == 0) slot = i;`.  The fold keeps the LAST empty
index seen, exactly as the loop overwrites `slot` without breaking. -/
def emptySlotScan (slots : List FunctionMap) (arraySize : Nat) : Option Nat :=
  (List.range arraySize).foldl
    (fun slot i => if ((slots.getD i ⟨0, none⟩).handler).isNone then some i else slot)
    none

/-- `FunctionMapper::addHandler(unsigned char functionCode, handler)`
(src/FunctionMapper.cpp lines 22-32).  The `functionCode` parameter is an
`unsigned char`, so a caller's wider value is truncated mod 256 on entry.
Returns the boolean result paired with the (possibly) updated table. -/
def FunctionMapper.addHandler (fm : FunctionMapper) (functionCode : Nat)
    (handler : Handler) : Bool × FunctionMapper :=
  match emptySlotScan fm.functionMapArray fm.arraySize with
  | some slot =>
      (true, { fm with functionMapArray :=
        fm.functionMapArray.set slot ⟨functionCode % 256, some handler⟩ })
  | none => (false, fm)

/-- The scan loop of `validateAddress` (src/FunctionMapper.cpp lines 37-42):
`for (unsigned int i = 0; functionMapArray[i].handler != 0; i++) if
(functionMapArray[i].functionCode == functionCode) { retval = true; break; }`. -/
def scanValidate (functionCode : Nat) : List FunctionMap → Bool
  | [] => false
  | e :: rest =>
      match e.handler with
      | none => false
      | some _ =>
          if e.functionCode = functionCode then true
          else scanValidate functionCode rest

/-- `FunctionMapper::validateAddress(unsigned int functionCode)`
(src/FunctionMapper.cpp lines 34-44). -/
def FunctionMapper.validateAddress (fm : FunctionMapper) (functionCode : Nat) : Bool :=
  scanValidate functionCode fm.functionMapArray

/-- The scan loop of `processValue` (src/FunctionMapper.cpp lines 49-53).
On a match the handler is called as `handler(functionCode, value)`: the
`unsigned int functionCode` is converted to the handler's `unsigned char`
parameter, i.e. truncated mod 256.  `value` is already an `unsigned char`. -/
def scanProcess (functionCode value : Nat) : List FunctionMap → Bool
  | [] => false
  | e :: rest =>
      match e.handler with
      | none => false
      | some h =>
          if e.functionCode = functionCode then h (functionCode % 256) value
          else scanProcess functionCode value rest

/-- `FunctionMapper::processValue(unsigned int functionCode, unsigned char value)`
(src/FunctionMapper.cpp lines 46-56).  The `value` parameter is an
`unsigned char`, so a caller's wider value is truncated mod 256 on entry. -/
def FunctionMapper.processValue (fm : FunctionMapper) (functionCode value : Nat) : Bool :=
  scanProcess functionCode (value % 256) fm.functionMapArray

/-- Iterated `addHandler`: performs the calls in order, accumulating the
conjunction of their boolean results and threading the table state. -/
def FunctionMapper.addAll (fm : FunctionMapper) (es : List (Nat × Handler)) :
    Bool × FunctionMapper :=
  es.foldl (fun acc e =>
    let r := acc.2.addHandler e.1 e.2
    (acc.1 && r.1, r.2)) (true, fm)

/-- The `FunctionMap` entry that `addHandler` stores for a call
`addHandler(code, h)`. -/
def storedEntry (p : Nat × Handler) : FunctionMap :=
  ⟨p.1 % 256, some p.2⟩

/-- Scanning past a block of live entries none of which matches the query
code: `scanValidate` proceeds into the tail. -/
theorem scanValidate_append_live (q : Nat) (xs rest : List FunctionMap)
    (hlive : ∀ x ∈ xs, x.handler.isSome = true)
    (hne : ∀ x ∈ xs, x.functionCode ≠ q) :
    scanValidate q (xs ++ rest) = scanValidate q rest := by
  induction xs with
  | nil => rfl
  | cons x xs ih =>
      have hx := hlive x (List.mem_cons_self x xs)
      cases hh : x.handler with
      | none => rw [hh] at hx; simp at hx
      | some h =>
          have hc : x.functionCode ≠ q := hne x (List.mem_cons_self x xs)
          simp only [List.cons_append, scanValidate, hh, if_neg hc]
          exact ih (fun y hy => hlive y (List.mem_cons_of_mem x hy))
            (fun y hy => hne y (List.mem_cons_of_mem x hy))

/-- Scanning past a block of live entries none of which matches the query
code: `scanProcess` proceeds into the tail. -/
theorem scanProcess_append_live (q v : Nat) (xs rest : List FunctionMap)
    (hlive : ∀ x ∈ xs, x.handler.isSome = true)
    (hne : ∀ x ∈ xs, x.functionCode ≠ q) :
    scanProcess q v (xs ++ rest) = scanProcess q v rest := by
  induction xs with
  | nil => rfl
  | cons x xs ih =>
      have hx := hlive x (List.mem_cons_self x xs)
      cases hh : x.handler with
      | none => rw [hh] at hx; simp at hx
      | some h =>
          have hc : x.functionCode ≠ q := hne x (List.mem_cons_self x xs)
          simp only [List.cons_append, scanProcess, hh, if_neg hc]
          exact ih (fun y hy => hlive y (List.mem_cons_of_mem x hy))
            (fun y hy => hne y (List.mem_cons_of_mem x hy))

/-- The `processValue` scan equals a first-match lookup over the live prefix
(the entries before the first sentinel handler), applying the found handler
to the truncated code. -/
theorem scanProcess_eq_find (q v : Nat) (l : List FunctionMap) :
    scanProcess q v l =
      match (l.takeWhile fun e => e.handler.isSome).find?
          (fun e => e.functionCode == q) with
      | some e => (e.handler.map fun h => h (q % 256) v).getD false
      | none => false := by
  induction l with
  | nil => rfl
  | cons e rest ih =>
      cases hh : e.handler with
      | none => simp [scanProcess, List.takeWhile_cons, hh]
      | some h =>
          by_cases hc : e.functionCode = q
          · simp [scanProcess, List.takeWhile_cons, List.find?_cons, hh, hc]
          · simp only [scanProcess, List.takeWhile_cons, hh, Option.isSome_some,
              if_true, if_neg hc, List.find?_cons]
            have : (e.functionCode == q) = false := by
              simpa using hc
            rw [this, ih]

/-- The `validateAddress` scan equals a first-match existence test over the
live prefix (the entries before the first sentinel handler). -/
theorem scanValidate_eq_find (q : Nat) (l : List FunctionMap) :
    scanValidate q l =
      ((l.takeWhile fun e => e.handler.isSome).find?
          (fun e => e.functionCode == q)).isSome := by
  induction l with
  | nil => rfl
  | cons e rest ih =>
      cases hh : e.handler with
      | none => simp [scanValidate, List.takeWhile_cons, hh]
      | some h =>
          by_cases hc : e.functionCode = q
          · simp [scanValidate, List.takeWhile_cons, List.find?_cons, hh, hc]
          · simp only [scanValidate, List.takeWhile_cons, hh, Option.isSome_some,
              if_true, if_neg hc, List.find?_cons]
            have : (e.functionCode == q) = false := by
              simpa using hc
            rw [this, ih]

/-- C2: with an initial list the effective capacity is the maximum of the
requested capacity and the number of live entries; with a null initial list
it is the requested capacity, or 10 when that is zero. -/
theorem construct_capacity (fma : List FunctionMap) (c : Nat) :
    (FunctionMapper.construct (some fma) c).arraySize = max c (fmaLiveCount fma)
    ∧ ((c < fmaLiveCount fma →
          (FunctionMapper.construct (some fma) c).arraySize = fmaLiveCount fma)
        ∧ (fmaLiveCount fma ≤ c →
          (FunctionMapper.construct (some fma) c).arraySize = c))
    ∧ (FunctionMapper.construct none c).arraySize = (if c = 0 then 10 else c) := by
  refine ⟨?_, ⟨?_, ?_⟩, rfl⟩
  · simp only [FunctionMapper.construct]
    rcases lt_or_ge c (fmaLiveCount fma) with h | h
    · simp [h, Nat.max_eq_right (Nat.le_of_lt h)]
    · simp [Nat.not_lt.mpr h, Nat.max_eq_left h]
  · intro h
    simp [FunctionMapper.construct, h]
  · intro h
    simp [FunctionMapper.construct, Nat.not_lt.mpr h]

/-- Witness for `construct_capacity` at a concrete input. -/
theorem construct_capacity_witness :
    (2 < fmaLiveCount [⟨5, some fun _ _ => true⟩, ⟨6, some fun _ _ => true⟩,
        ⟨7, some fun _ _ => true⟩, ⟨0, none⟩]) ∧
    (FunctionMapper.construct (some [⟨5, some fun _ _ => true⟩,
        ⟨6, some fun _ _ => true⟩, ⟨7, some fun _ _ => true⟩, ⟨0, none⟩]) 2).arraySize
      = fmaLiveCount [⟨5, some fun _ _ => true⟩, ⟨6, some fun _ _ => true⟩,
        ⟨7, some fun _ _ => true⟩, ⟨0, none⟩] :=
  ⟨by decide,
   (construct_capacity [⟨5, some fun _ _ => true⟩, ⟨6, some fun _ _ => true⟩,
      ⟨7, some fun _ _ => true⟩, ⟨0, none⟩] 2).2.1.1 (by decide)⟩

/-- C9: constructing from a non-null initial list whose first entry is the
sentinel, with requested capacity 0, yields effective capacity 0 (the default
of 10 is not applied), so every subsequent `addHandler` call returns `false`
and leaves the table unchanged. -/
theorem construct_emptyList_zero_capacity (c0 : Nat) (rest : List FunctionMap)
    (code : Nat) (h : Handler) :
    (FunctionMapper.construct (some (⟨c0, none⟩ :: rest)) 0).arraySize = 0
    ∧ (FunctionMapper.construct (some (⟨c0, none⟩ :: rest)) 0).addHandler code h
        = (false, FunctionMapper.construct (some (⟨c0, none⟩ :: rest)) 0) := by
  constructor
  · simp [FunctionMapper.construct, fmaLiveCount]
  · simp [FunctionMapper.construct, fmaLiveCount, FunctionMapper.addHandler,
      emptySlotScan]

/-- C1 (counterexample): the claim states the handler is invoked with the
code at full width, but `processValue` converts the `unsigned int` code to
the handler's `unsigned char` parameter.  For a table holding the single
entry `(300, h)` with `h c v = (c == 300)`, the claim predicts
`processValue(300, 0) = h 300 0 = true`, yet the code yields
`h 44 0 = false`. -/
theorem dispatch_full_width_counterexample :
    FunctionMapper.processValue
        (FunctionMapper.construct
          (some [⟨300, some (fun c _ => c == 300)⟩, ⟨0, none⟩]) 0) 300 0 = false
    ∧ ((fun c _ => c == 300) : Handler) 300 0 = true :=
  ⟨rfl, rfl⟩

/-- C1 (amended): `processValue` scans from index 0, stopping at the first
sentinel-handler slot; on the first entry whose code matches it invokes that
entry's handler with `(code mod 256, value)` and returns the handler's
boolean result, and returns `false` if the scan reaches a sentinel handler
without a match; `validateAddress` is the corresponding existence test.
For a table holding exactly `{(1,hA),(2,hB)}` in slots 0 and 1 the claimed
concrete results all hold (those codes are below 256). -/
theorem dispatch_semantics_amended :
    (∀ (fm : FunctionMapper) (code v : Nat),
      fm.processValue code v =
        match (fm.functionMapArray.takeWhile fun e => e.handler.isSome).find?
            (fun e => e.functionCode == code) with
        | some e => (e.handler.map fun h => h (code % 256) (v % 256)).getD false
        | none => false)
    ∧ (∀ (fm : FunctionMapper) (code : Nat),
      fm.validateAddress code =
        ((fm.functionMapArray.takeWhile fun e => e.handler.isSome).find?
            (fun e => e.functionCode == code)).isSome)
    ∧ (∀ (hA hB : Handler) (v : Nat), v < 256 →
      (FunctionMapper.construct
          (some [⟨1, some hA⟩, ⟨2, some hB⟩, ⟨0, none⟩]) 0).processValue 1 v = hA 1 v
      ∧ (FunctionMapper.construct
          (some [⟨1, some hA⟩, ⟨2, some hB⟩, ⟨0, none⟩]) 0).processValue 2 v = hB 2 v
      ∧ (FunctionMapper.construct
          (some [⟨1, some hA⟩, ⟨2, some hB⟩, ⟨0, none⟩]) 0).processValue 3 v = false
      ∧ (FunctionMapper.construct
          (some [⟨1, some hA⟩, ⟨2, some hB⟩, ⟨0, none⟩]) 0).validateAddress 1 = true
      ∧ (FunctionMapper.construct
          (some [⟨1, some hA⟩, ⟨2, some hB⟩, ⟨0, none⟩]) 0).validateAddress 2 = true
      ∧ (FunctionMapper.construct
          (some [⟨1, some hA⟩, ⟨2, some hB⟩, ⟨0, none⟩]) 0).validateAddress 3 = false) := by
  refine ⟨?_, ?_, ?_⟩
  · intro fm code v
    exact scanProcess_eq_find code (v % 256) fm.functionMapArray
  · intro fm code
    exact scanValidate_eq_find code fm.functionMapArray
  · intro hA hB v hv
    have hT : FunctionMapper.construct
        (some [⟨1, some hA⟩, ⟨2, some hB⟩, ⟨0, none⟩]) 0
        = ⟨2, [⟨1, some hA⟩, ⟨2, some hB⟩, ⟨0, none⟩]⟩ := rfl
    refine ⟨?_, ?_, ?_, ?_, ?_, ?_⟩ <;>
      simp [hT, FunctionMapper.processValue, FunctionMapper.validateAddress,
        scanProcess, scanValidate, Nat.mod_eq_of_lt hv]

/-- Witness for `dispatch_semantics_amended` at a concrete input. -/
theorem dispatch_semantics_amended_witness :
    (5 : Nat) < 256
    ∧ (FunctionMapper.construct
        (some [⟨1, some (fun _ _ => true)⟩, ⟨2, some (fun _ _ => false)⟩,
               ⟨0, none⟩]) 0).processValue 1 5 = true :=
  ⟨by decide,
   (dispatch_semantics_amended.2.2 (fun _ _ => true) (fun _ _ => false) 5
     (by decide)).1⟩

/-- C7: when live entries before the first sentinel share a code, the
lowest-indexed one wins: for any block `xs` of live non-matching entries
followed by a matching entry, `validateAddress` returns `true` and
`processValue` returns that entry's handler's result, whatever entries
(including duplicates of the code) follow it. -/
theorem duplicate_code_first_match (n q v : Nat) (xs ys : List FunctionMap)
    (h : Handler)
    (hlive : ∀ x ∈ xs, x.handler.isSome = true)
    (hne : ∀ x ∈ xs, x.functionCode ≠ q) :
    FunctionMapper.validateAddress ⟨n, xs ++ ⟨q, some h⟩ :: ys⟩ q = true
    ∧ FunctionMapper.processValue ⟨n, xs ++ ⟨q, some h⟩ :: ys⟩ q v
        = h (q % 256) (v % 256) := by
  constructor
  · show scanValidate q (xs ++ ⟨q, some h⟩ :: ys) = true
    rw [scanValidate_append_live q xs _ hlive hne]
    simp [scanValidate]
  · show scanProcess q (v % 256) (xs ++ ⟨q, some h⟩ :: ys) = h (q % 256) (v % 256)
    rw [scanProcess_append_live q (v % 256) xs _ hlive hne]
    simp [scanProcess]

/-- Witness for `duplicate_code_first_match`: code 2 is duplicated, the
earlier entry's handler (returning `true`) decides the result. -/
theorem duplicate_code_first_match_witness :
    FunctionMapper.validateAddress
        ⟨4, [⟨1, some (fun _ _ => false)⟩, ⟨2, some (fun _ _ => true)⟩,
             ⟨2, some (fun _ _ => false)⟩, ⟨0, none⟩]⟩ 2 = true
    ∧ FunctionMapper.processValue
        ⟨4, [⟨1, some (fun _ _ => false)⟩, ⟨2, some (fun _ _ => true)⟩,
             ⟨2, some (fun _ _ => false)⟩, ⟨0, none⟩]⟩ 2 0 = true :=
  duplicate_code_first_match 4 2 0 [⟨1, some (fun _ _ => false)⟩]
    [⟨2, some (fun _ _ => false)⟩, ⟨0, none⟩] (fun _ _ => true)
    (by intro x hx; rcases List.mem_singleton.mp hx with rfl; rfl)
    (by intro x hx; rcases List.mem_singleton.mp hx with rfl; decide)

/-- C10: matching uses the full-width stored code, but the handler receives
the code truncated to one byte: for a first match on a stored code
`n > 255`, the handler is invoked with `n mod 256`, which differs from `n`. -/
theorem processValue_truncated_invocation (m n v : Nat)
    (xs ys : List FunctionMap) (h : Handler)
    (hlive : ∀ x ∈ xs, x.handler.isSome = true)
    (hne : ∀ x ∈ xs, x.functionCode ≠ n)
    (hn : 255 < n) (hv : v < 256) :
    FunctionMapper.processValue ⟨m, xs ++ ⟨n, some h⟩ :: ys⟩ n v = h (n % 256) v
    ∧ n % 256 ≠ n := by
  constructor
  · show scanProcess n (v % 256) (xs ++ ⟨n, some h⟩ :: ys) = h (n % 256) v
    rw [scanProcess_append_live n (v % 256) xs _ hlive hne]
    simp [scanProcess, Nat.mod_eq_of_lt hv]
  · have h256 : n % 256 < 256 := Nat.mod_lt n (by decide)
    omega

/-- Witness for `processValue_truncated_invocation` at stored code 300:
the handler observes 44, not 300. -/
theorem processValue_truncated_invocation_witness :
    (255 : Nat) < 300
    ∧ FunctionMapper.processValue
        ⟨1, [⟨300, some (fun c _ => c == 44)⟩, ⟨0, none⟩]⟩ 300 0 = true
    ∧ (300 : Nat) % 256 ≠ 300 :=
  ⟨by decide,
   (processValue_truncated_invocation 1 300 0 [] [⟨0, none⟩] (fun c _ => c == 44)
      (by intro x hx; simp at hx) (by intro x hx; simp at hx)
      (by decide) (by decide)).1,
   (processValue_truncated_invocation 1 300 0 [] [⟨0, none⟩] (fun c _ => c == 44)
      (by intro x hx; simp at hx) (by intro x hx; simp at hx)
      (by decide) (by decide)).2⟩

/-- Unfolding one step of the `addHandler` slot-search loop. -/
theorem emptySlotScan_succ (slots : List FunctionMap) (n : Nat) :
    emptySlotScan slots (n + 1) =
      if ((slots.getD n ⟨0, none⟩).handler).isNone then some n
      else emptySlotScan slots n := by
  simp [emptySlotScan, List.range_succ]

/-- The slot-search loop finds no slot exactly when every scanned slot is
occupied. -/
theorem emptySlotScan_eq_none_iff (slots : List FunctionMap) (n : Nat) :
    emptySlotScan slots n = none ↔
      ∀ i, i < n → ((slots.getD i ⟨0, none⟩).handler).isSome = true := by
  induction n with
  | zero => simp [emptySlotScan]
  | succ n ih =>
      rw [emptySlotScan_succ]
      cases hopt : (slots.getD n ⟨0, none⟩).handler with
      | none =>
          simp only [hopt, Option.isNone_none, if_true]
          constructor
          · intro h; simp at h
          · intro h
            have hn := h n (Nat.lt_succ_self n)
            rw [hopt] at hn
            simp at hn
      | some g =>
          simp only [hopt, Option.isNone_some, Bool.false_eq_true, if_false]
          rw [ih]
          constructor
          · intro h i hi
            rcases Nat.lt_succ_iff_lt_or_eq.mp hi with h1 | rfl
            · exact h i h1
            · rw [hopt]; rfl
          · intro h i hi
            exact h i (Nat.lt_succ_of_lt hi)

/-- The slot-search loop returns exactly the LAST empty slot among the
scanned ones: `some j` holds precisely when slot `j` is empty and every
later scanned slot is occupied. -/
theorem emptySlotScan_eq_some_iff (slots : List FunctionMap) (n j : Nat) :
    emptySlotScan slots n = some j ↔
      (j < n ∧ ((slots.getD j ⟨0, none⟩).handler).isNone = true
        ∧ ∀ i, j < i → i < n →
            ((slots.getD i ⟨0, none⟩).handler).isSome = true) := by
  induction n with
  | zero => simp [emptySlotScan]
  | succ n ih =>
      rw [emptySlotScan_succ]
      cases hopt : (slots.getD n ⟨0, none⟩).handler with
      | none =>
          simp only [hopt, Option.isNone_none, if_true]
          constructor
          · intro h
            have hj : n = j := by
              simpa using h
            subst hj
            exact ⟨Nat.lt_succ_self n, by rw [hopt]; rfl,
              fun i h1 h2 => absurd h2 (by omega)⟩
          · rintro ⟨hj, hnone, hocc⟩
            by_cases hjn : j = n
            · subst hjn; rfl
            · have := hocc n (by omega) (Nat.lt_succ_self n)
              rw [hopt] at this
              simp at this
      | some g =>
          simp only [hopt, Option.isNone_some, Bool.false_eq_true, if_false]
          rw [ih]
          constructor
          · rintro ⟨hj, hnone, hocc⟩
            refine ⟨by omega, hnone, fun i h1 h2 => ?_⟩
            rcases Nat.lt_succ_iff_lt_or_eq.mp h2 with h3 | rfl
            · exact hocc i h1 h3
            · rw [hopt]; rfl
          · rintro ⟨hj, hnone, hocc⟩
            have hjn : j ≠ n := by
              intro he
              subst he
              rw [hopt] at hnone
              simp at hnone
            exact ⟨by omega, hnone, fun i h1 h2 => hocc i h1 (by omega)⟩

/-- Normal form of the constructor on a supplied initial list. -/
theorem construct_some_eq (fma : List FunctionMap) (size : Nat) :
    FunctionMapper.construct (some fma) size
      = ⟨max size (fmaLiveCount fma),
         fma.takeWhile (fun e => e.handler.isSome)
           ++ List.replicate
               (max size (fmaLiveCount fma) + 1 - fmaLiveCount fma) ⟨0, none⟩⟩ := by
  simp only [FunctionMapper.construct]
  rcases lt_or_ge size (fmaLiveCount fma) with h | h
  · simp [h, Nat.max_eq_right (Nat.le_of_lt h)]
  · simp [Nat.not_lt.mpr h, Nat.max_eq_left h]

/-- Normal form of the constructor on a null initial list. -/
theorem construct_none_eq (size : Nat) :
    FunctionMapper.construct none size
      = ⟨if size = 0 then 10 else size,
         List.replicate ((if size = 0 then 10 else size) + 1) ⟨0, none⟩⟩ := rfl

/-- C3: when all `arraySize` real slots hold non-sentinel handlers,
`addHandler` returns `false` and the table is unchanged; a table built from
only an initial list (requested capacity 0) is exactly full, so every
subsequent `addHandler` call fails without mutation. -/
theorem addHandler_full_no_mutation :
    (∀ (fm : FunctionMapper) (code : Nat) (h : Handler),
      (∀ i, i < fm.arraySize →
        ((fm.functionMapArray.getD i ⟨0, none⟩).handler).isSome = true) →
      fm.addHandler code h = (false, fm))
    ∧ ∀ (fma : List FunctionMap) (code : Nat) (h : Handler),
        (FunctionMapper.construct (some fma) 0).arraySize = fmaLiveCount fma
        ∧ (FunctionMapper.construct (some fma) 0).addHandler code h
            = (false, FunctionMapper.construct (some fma) 0) := by
  have gen : ∀ (fm : FunctionMapper) (code : Nat) (h : Handler),
      (∀ i, i < fm.arraySize →
        ((fm.functionMapArray.getD i ⟨0, none⟩).handler).isSome = true) →
      fm.addHandler code h = (false, fm) := by
    intro fm code h hfull
    have hscan : emptySlotScan fm.functionMapArray fm.arraySize = none :=
      (emptySlotScan_eq_none_iff _ _).mpr hfull
    simp [FunctionMapper.addHandler, hscan]
  refine ⟨gen, ?_⟩
  intro fma code h
  have hT : FunctionMapper.construct (some fma) 0
      = ⟨fmaLiveCount fma,
         fma.takeWhile (fun e => e.handler.isSome) ++ List.replicate 1 ⟨0, none⟩⟩ := by
    rw [construct_some_eq]
    have h1 : max 0 (fmaLiveCount fma) = fmaLiveCount fma := Nat.max_eq_right (Nat.zero_le _)
    have h2 : fmaLiveCount fma + 1 - fmaLiveCount fma = 1 := by omega
    rw [h1, h2]
  refine ⟨by rw [hT], ?_⟩
  rw [hT]
  apply gen
  intro i hi
  have hlen : i < (fma.takeWhile (fun e => e.handler.isSome)).length := hi
  rw [List.getD_append _ _ _ _ hlen, List.getD_eq_getElem _ _ hlen]
  have hmem := List.getElem_mem hlen
  simpa using List.mem_takeWhile_imp hmem

/-- Witness for `addHandler_full_no_mutation` at a concrete full table. -/
theorem addHandler_full_no_mutation_witness :
    FunctionMapper.addHandler ⟨1, [⟨7, some (fun _ _ => true)⟩, ⟨0, none⟩]⟩ 3
        (fun _ _ => false)
      = (false, ⟨1, [⟨7, some (fun _ _ => true)⟩, ⟨0, none⟩]⟩) :=
  addHandler_full_no_mutation.1 ⟨1, [⟨7, some (fun _ _ => true)⟩, ⟨0, none⟩]⟩ 3
    (fun _ _ => false)
    (by
      intro i hi
      have hi1 : i < 1 := hi
      obtain rfl : i = 0 := Nat.lt_one_iff.mp hi1
      rfl)

/-- C4: when an empty slot exists among the `arraySize` real slots,
`addHandler` writes the new entry into the LAST empty slot of the forward
scan, returns `true`, and modifies no other slot; concretely, for capacity 5
with 2 initial live entries the first added entry lands in slot 4, not
slot 2. -/
theorem addHandler_last_empty_slot :
    (∀ (fm : FunctionMapper) (code : Nat) (h : Handler) (j : Nat),
      j < fm.arraySize →
      ((fm.functionMapArray.getD j ⟨0, none⟩).handler).isNone = true →
      (∀ i, j < i → i < fm.arraySize →
        ((fm.functionMapArray.getD i ⟨0, none⟩).handler).isSome = true) →
      fm.addHandler code h
          = (true, ⟨fm.arraySize, fm.functionMapArray.set j ⟨code % 256, some h⟩⟩)
        ∧ ∀ i, i ≠ j →
            ((fm.addHandler code h).2).functionMapArray.getD i ⟨0, none⟩
              = fm.functionMapArray.getD i ⟨0, none⟩)
    ∧ ∀ (a b code : Nat) (ha hb h : Handler), code < 256 →
        ((FunctionMapper.construct
            (some [⟨a, some ha⟩, ⟨b, some hb⟩, ⟨0, none⟩]) 5).addHandler code h).1
          = true
        ∧ ((FunctionMapper.construct
            (some [⟨a, some ha⟩, ⟨b, some hb⟩, ⟨0, none⟩]) 5).addHandler code h).2.functionMapArray
          = [⟨a, some ha⟩, ⟨b, some hb⟩, ⟨0, none⟩, ⟨0, none⟩,
             ⟨code, some h⟩, ⟨0, none⟩] := by
  constructor
  · intro fm code h j hj hnone hocc
    have hscan : emptySlotScan fm.functionMapArray fm.arraySize = some j :=
      (emptySlotScan_eq_some_iff _ _ _).mpr ⟨hj, hnone, hocc⟩
    constructor
    · simp [FunctionMapper.addHandler, hscan]
    · intro i hij
      simp only [FunctionMapper.addHandler, hscan]
      simp [List.getD, List.getElem?_set_ne (Ne.symm hij)]
  · intro a b code ha hb h hcode
    have hstep : (FunctionMapper.construct
        (some [⟨a, some ha⟩, ⟨b, some hb⟩, ⟨0, none⟩]) 5).addHandler code h
        = (true, ⟨5, [⟨a, some ha⟩, ⟨b, some hb⟩, ⟨0, none⟩, ⟨0, none⟩,
                      ⟨code % 256, some h⟩, ⟨0, none⟩]⟩) := rfl
    refine ⟨by rw [hstep], ?_⟩
    rw [hstep, Nat.mod_eq_of_lt hcode]

/-- Witness for `addHandler_last_empty_slot`: in an empty capacity-2 table
the added entry lands in slot 1, the last empty slot. -/
theorem addHandler_last_empty_slot_witness :
    FunctionMapper.addHandler ⟨2, [⟨0, none⟩, ⟨0, none⟩, ⟨0, none⟩]⟩ 5
        (fun _ _ => true)
      = (true, ⟨2, ([⟨0, none⟩, ⟨0, none⟩, ⟨0, none⟩] : List FunctionMap).set 1
          ⟨5 % 256, some (fun _ _ => true)⟩⟩) :=
  (addHandler_last_empty_slot.1 ⟨2, [⟨0, none⟩, ⟨0, none⟩, ⟨0, none⟩]⟩ 5
    (fun _ _ => true) 1 (by decide) (by rfl)
    (by intro i h1 h2; have h3 : i < 2 := h2; omega)).1

/-- C8: the terminator slot at index `arraySize` holds `(0, sentinel)` right
after construction, and `addHandler` (the only mutator; `validateAddress`
and `processValue` are pure and return only a boolean) never changes the
slot at index `arraySize`, so the terminator persists for the table's
lifetime. -/
theorem terminator_invariant :
    (∀ (init : Option (List FunctionMap)) (size : Nat),
      (FunctionMapper.construct init size).functionMapArray.length
          = (FunctionMapper.construct init size).arraySize + 1
      ∧ (FunctionMapper.construct init size).functionMapArray.getD
          (FunctionMapper.construct init size).arraySize ⟨0, none⟩ = ⟨0, none⟩)
    ∧ ∀ (fm : FunctionMapper) (code : Nat) (h : Handler),
        ((fm.addHandler code h).2).arraySize = fm.arraySize
        ∧ ((fm.addHandler code h).2).functionMapArray.getD fm.arraySize ⟨0, none⟩
            = fm.functionMapArray.getD fm.arraySize ⟨0, none⟩ := by
  constructor
  · intro init size
    cases init with
    | none =>
        rw [construct_none_eq]
        constructor
        · simp
        · rw [List.getD_eq_getElem _ _ (by simp), List.getElem_replicate]
    | some fma =>
        rw [construct_some_eq]
        have hk : fmaLiveCount fma ≤ max size (fmaLiveCount fma) :=
          Nat.le_max_right size (fmaLiveCount fma)
        have hlen : (fma.takeWhile (fun e => e.handler.isSome)).length
            = fmaLiveCount fma := rfl
        constructor
        · simp only [List.length_append, List.length_replicate, hlen]
          omega
        · rw [List.getD_append_right _ _ _ _ (by rw [hlen]; exact hk)]
          rw [List.getD_eq_getElem _ _ (by simp only [List.length_replicate, hlen]; omega),
            List.getElem_replicate]
  · intro fm code h
    cases hscan : emptySlotScan fm.functionMapArray fm.arraySize with
    | none => simp [FunctionMapper.addHandler, hscan]
    | some j =>
        have hj : j < fm.arraySize :=
          ((emptySlotScan_eq_some_iff _ _ _).mp hscan).1
        constructor
        · simp [FunctionMapper.addHandler, hscan]
        · simp only [FunctionMapper.addHandler, hscan]
          simp [List.getD, List.getElem?_set_ne (Nat.ne_of_lt hj)]

/-- C5: the lookup scans stop at the first sentinel slot even when occupied
slots exist beyond it.  For capacity 5 with 2 initial live entries, a
successful `addHandler(c, h)` stores `(c, h)` in slot 4, yet
`validateAddress c` and `processValue c v` return `false` because the scan
stops at the still-empty slot 2. -/
theorem sentinel_gap_hides_added_entry (a b c v : Nat) (ha hb h : Handler)
    (hc : c < 256) (hca : c ≠ a) (hcb : c ≠ b) :
    ((FunctionMapper.construct
        (some [⟨a, some ha⟩, ⟨b, some hb⟩, ⟨0, none⟩]) 5).addHandler c h).1 = true
    ∧ (((FunctionMapper.construct
        (some [⟨a, some ha⟩, ⟨b, some hb⟩, ⟨0, none⟩]) 5).addHandler c h).2).functionMapArray.getD
        4 ⟨0, none⟩ = ⟨c, some h⟩
    ∧ (((FunctionMapper.construct
        (some [⟨a, some ha⟩, ⟨b, some hb⟩, ⟨0, none⟩]) 5).addHandler c h).2).validateAddress c
        = false
    ∧ (((FunctionMapper.construct
        (some [⟨a, some ha⟩, ⟨b, some hb⟩, ⟨0, none⟩]) 5).addHandler c h).2).processValue c v
        = false := by
  have hstep : (FunctionMapper.construct
      (some [⟨a, some ha⟩, ⟨b, some hb⟩, ⟨0, none⟩]) 5).addHandler c h
      = (true, ⟨5, [⟨a, some ha⟩, ⟨b, some hb⟩, ⟨0, none⟩, ⟨0, none⟩,
                    ⟨c % 256, some h⟩, ⟨0, none⟩]⟩) := rfl
  refine ⟨by rw [hstep], ?_, ?_, ?_⟩
  · rw [hstep, Nat.mod_eq_of_lt hc]
    rfl
  · rw [hstep]
    show scanValidate c [⟨a, some ha⟩, ⟨b, some hb⟩, ⟨0, none⟩, ⟨0, none⟩,
        ⟨c % 256, some h⟩, ⟨0, none⟩] = false
    simp [scanValidate, Ne.symm hca, Ne.symm hcb]
  · rw [hstep]
    show scanProcess c (v % 256) [⟨a, some ha⟩, ⟨b, some hb⟩, ⟨0, none⟩, ⟨0, none⟩,
        ⟨c % 256, some h⟩, ⟨0, none⟩] = false
    simp [scanProcess, Ne.symm hca, Ne.symm hcb]

/-- Witness for `sentinel_gap_hides_added_entry` with initial codes 1, 2 and
added code 3. -/
theorem sentinel_gap_hides_added_entry_witness :
    (3 : Nat) < 256 ∧ (3 : Nat) ≠ 1 ∧ (3 : Nat) ≠ 2
    ∧ (((FunctionMapper.construct
        (some [⟨1, some (fun _ _ => true)⟩, ⟨2, some (fun _ _ => true)⟩,
               ⟨0, none⟩]) 5).addHandler 3 (fun _ _ => true)).2).validateAddress 3
        = false :=
  ⟨by decide, by decide, by decide,
   (sentinel_gap_hides_added_entry 1 2 3 0 (fun _ _ => true) (fun _ _ => true)
      (fun _ _ => true) (by decide) (by decide) (by decide)).2.2.1⟩

/-- Writing into the last slot of the empty prefix of a partially filled
table: `set` at index `m` moves the boundary one slot to the left. -/
theorem set_fill_step (m : Nat) (occ : List FunctionMap) (a : FunctionMap) :
    (List.replicate (m + 1) (⟨0, none⟩ : FunctionMap) ++ occ
        ++ [(⟨0, none⟩ : FunctionMap)]).set m a
      = List.replicate m (⟨0, none⟩ : FunctionMap) ++ (a :: occ)
        ++ [(⟨0, none⟩ : FunctionMap)] := by
  induction m with
  | zero => rfl
  | succ m ih =>
      show (⟨0, none⟩ : FunctionMap)
          :: ((List.replicate (m + 1) (⟨0, none⟩ : FunctionMap) ++ occ
              ++ [(⟨0, none⟩ : FunctionMap)]).set m a)
        = (⟨0, none⟩ : FunctionMap)
          :: (List.replicate m (⟨0, none⟩ : FunctionMap) ++ (a :: occ)
              ++ [(⟨0, none⟩ : FunctionMap)])
      rw [ih]

/-- Filling a table whose slots are an empty prefix of length `k`, then a
fully occupied block, then the terminator: `addAll` succeeds on any list of
at most `k` entries, writing them right-to-left into the empty prefix. -/
theorem addAll_fill (es : List (Nat × Handler)) :
    ∀ (k : Nat) (occ : List FunctionMap) (n : Nat),
      (∀ e ∈ occ, e.handler.isSome = true) → es.length ≤ k →
      n = k + occ.length →
      FunctionMapper.addAll ⟨n, List.replicate k ⟨0, none⟩ ++ occ ++ [⟨0, none⟩]⟩ es
        = (true, ⟨n, List.replicate (k - es.length) ⟨0, none⟩
            ++ (es.map storedEntry).reverse ++ occ ++ [⟨0, none⟩]⟩) := by
  induction es with
  | nil =>
      intro k occ n hocc hlen hn
      simp [FunctionMapper.addAll]
  | cons p es ih =>
      intro k occ n hocc hlen hn
      have hk1 : es.length + 1 ≤ k := by simpa using hlen
      obtain ⟨m, rfl⟩ : ∃ m, k = m + 1 := ⟨k - 1, by omega⟩
      have hscan : emptySlotScan
          (List.replicate (m + 1) ⟨0, none⟩ ++ occ ++ [⟨0, none⟩]) n = some m := by
        rw [emptySlotScan_eq_some_iff]
        refine ⟨by omega, ?_, ?_⟩
        · rw [List.getD_append _ _ _ _
              (by rw [List.length_append, List.length_replicate]; omega)]
          rw [List.getD_append _ _ _ _ (by rw [List.length_replicate]; omega)]
          rw [List.getD_eq_getElem _ _ (by rw [List.length_replicate]; omega),
            List.getElem_replicate]
          rfl
        · intro i h1 h2
          rw [List.getD_append _ _ _ _
              (by rw [List.length_append, List.length_replicate]; omega)]
          rw [List.getD_append_right _ _ _ _ (by rw [List.length_replicate]; omega)]
          rw [List.length_replicate]
          have hb : i - (m + 1) < occ.length := by omega
          rw [List.getD_eq_getElem _ _ hb]
          exact hocc _ (List.getElem_mem hb)
      have hstep : FunctionMapper.addHandler
          ⟨n, List.replicate (m + 1) (⟨0, none⟩ : FunctionMap) ++ occ
              ++ [⟨0, none⟩]⟩ p.1 p.2
          = (true, ⟨n, (List.replicate (m + 1) (⟨0, none⟩ : FunctionMap) ++ occ
              ++ [(⟨0, none⟩ : FunctionMap)]).set m ⟨p.1 % 256, some p.2⟩⟩) := by
        simp only [FunctionMapper.addHandler]
        rw [hscan]
      have hcons : FunctionMapper.addAll
          ⟨n, List.replicate (m + 1) (⟨0, none⟩ : FunctionMap) ++ occ
              ++ [⟨0, none⟩]⟩ (p :: es)
          = FunctionMapper.addAll
            ⟨n, (List.replicate (m + 1) (⟨0, none⟩ : FunctionMap) ++ occ
              ++ [(⟨0, none⟩ : FunctionMap)]).set m ⟨p.1 % 256, some p.2⟩⟩ es := by
        simp only [FunctionMapper.addAll, List.foldl_cons]
        rw [hstep]
        rfl
      rw [hcons, set_fill_step]
      rw [ih m (⟨p.1 % 256, some p.2⟩ :: occ) n ?_ (by omega)
        (by rw [List.length_cons]; omega)]
      · simp only [List.map_cons, List.reverse_cons, Prod.mk.injEq, true_and,
          FunctionMapper.mk.injEq, List.length_cons, Nat.succ_sub_succ_eq_sub,
          storedEntry]
        simp [List.append_assoc]
      · intro e he
        rcases List.mem_cons.mp he with rfl | he2
        · rfl
        · exact hocc e he2

/-- C6: constructing an empty table of capacity `c > 0` and filling all `c`
real slots via `addAll` (all calls succeed), a lookup with a code matching
no stored entry returns `false` for both `validateAddress` and
`processValue`; the storage has exactly `c + 1` slots and the scan result
is unchanged by anything placed after the terminator slot at index `c`,
i.e. the scan never depends on slots past index `c`. -/
theorem fill_to_capacity_then_unknown (c : Nat) (es : List (Nat × Handler))
    (q v : Nat) (hc : 0 < c) (hlen : es.length = c)
    (hq : ∀ p ∈ es, p.1 % 256 ≠ q) :
    ((FunctionMapper.construct none c).addAll es).1 = true
    ∧ ((FunctionMapper.construct none c).addAll es).2.validateAddress q = false
    ∧ ((FunctionMapper.construct none c).addAll es).2.processValue q v = false
    ∧ ((FunctionMapper.construct none c).addAll es).2.functionMapArray.length
        = c + 1
    ∧ ∀ junk : List FunctionMap,
        scanValidate q
            (((FunctionMapper.construct none c).addAll es).2.functionMapArray
              ++ junk) = false
        ∧ scanProcess q (v % 256)
            (((FunctionMapper.construct none c).addAll es).2.functionMapArray
              ++ junk) = false := by
  have hc0 : c ≠ 0 := Nat.pos_iff_ne_zero.mp hc
  have hT : FunctionMapper.construct none c
      = ⟨c, List.replicate c ⟨0, none⟩ ++ [] ++ [⟨0, none⟩]⟩ := by
    rw [construct_none_eq]
    simp [hc0, List.replicate_succ']
  have hfill := addAll_fill es c [] c (by intro e he; simp at he) (by omega)
    (by simp)
  have hR : (FunctionMapper.construct none c).addAll es
      = (true, ⟨c, (es.map storedEntry).reverse ++ [⟨0, none⟩]⟩) := by
    rw [hT, hfill]
    simp [hlen]
  have hlive : ∀ x ∈ (es.map storedEntry).reverse, x.handler.isSome = true := by
    intro x hx
    rw [List.mem_reverse] at hx
    obtain ⟨p, hp, rfl⟩ := List.mem_map.mp hx
    rfl
  have hnom : ∀ x ∈ (es.map storedEntry).reverse, x.functionCode ≠ q := by
    intro x hx
    rw [List.mem_reverse] at hx
    obtain ⟨p, hp, rfl⟩ := List.mem_map.mp hx
    exact hq p hp
  refine ⟨by rw [hR], ?_, ?_, ?_, ?_⟩
  · rw [hR]
    show scanValidate q ((es.map storedEntry).reverse ++ [⟨0, none⟩]) = false
    rw [scanValidate_append_live q _ _ hlive hnom]
    rfl
  · rw [hR]
    show scanProcess q (v % 256)
        ((es.map storedEntry).reverse ++ [⟨0, none⟩]) = false
    rw [scanProcess_append_live q (v % 256) _ _ hlive hnom]
    rfl
  · rw [hR]
    simp [hlen]
  · intro junk
    constructor
    · rw [hR]
      show scanValidate q
          (((es.map storedEntry).reverse ++ [⟨0, none⟩]) ++ junk) = false
      rw [List.append_assoc, scanValidate_append_live q _ _ hlive hnom]
      rfl
    · rw [hR]
      show scanProcess q (v % 256)
          (((es.map storedEntry).reverse ++ [⟨0, none⟩]) ++ junk) = false
      rw [List.append_assoc, scanProcess_append_live q (v % 256) _ _ hlive hnom]
      rfl

/-- Witness for `fill_to_capacity_then_unknown` at capacity 1. -/
theorem fill_to_capacity_then_unknown_witness :
    (0 : Nat) < 1
    ∧ ((FunctionMapper.construct none 1).addAll [(1, fun _ _ => true)]).1 = true
    ∧ ((FunctionMapper.construct none 1).addAll
        [(1, fun _ _ => true)]).2.validateAddress 2 = false :=
  ⟨by decide,
   (fill_to_capacity_then_unknown 1 [(1, fun _ _ => true)] 2 0 (by decide) rfl
      (by intro p hp; rcases List.mem_singleton.mp hp with rfl; decide)).1,
   (fill_to_capacity_then_unknown 1 [(1, fun _ _ => true)] 2 0 (by decide) rfl
      (by intro p hp; rcases List.mem_singleton.mp hp with rfl; decide)).2.1⟩
